import Mathlib

/-!
Verification of the superlocalmemory VS Code extension's memory core
(`memory-db.ts`, `embeddings.ts`) against its natural-language specification.

The TypeScript source is shallowly embedded:
* embedding blobs are byte lists; a 64-bit float is represented by its
  64-bit pattern (a natural number below `2 ^ 64`), so the
  `Float64Array`/`Buffer` round trip is bit-for-bit;
* float arithmetic inside the similarity scan is idealised over `ℝ`;
* the SQLite tables `memories` and `memory_edges` are lists of rows;
  SQL `UPDATE`/`DELETE`/`INSERT` become the corresponding list operations;
* `randomUUID()` and `Date.now()` are passed in as explicit arguments;
* a thrown JavaScript error is an `Except.error`.
-/

set_option maxHeartbeats 1000000

namespace SLM

/-! ## Embedding blob codec (`MemoryDB.encodeEmbedding` / `decodeEmbedding`)

`encodeEmbedding(vec)` is `Buffer.from(new Float64Array(vec).buffer)`: each
element contributes its eight bytes, least significant first (little-endian
layout of the typed array's backing buffer).  `decodeEmbedding(blob)`
reinterprets the bytes as a `Float64Array`; the constructor throws when the
byte length is not a multiple of 8, which callers catch — hence `Option`. -/

/-- Little-endian byte list (length `n`) of the bit pattern `x`. -/
def natToBytes : ℕ → ℕ → List ℕ
  | 0, _ => []
  | n + 1, x => x % 256 :: natToBytes n (x / 256)

/-- Recompose a little-endian byte list into a bit pattern. -/
def bytesToNat : List ℕ → ℕ
  | [] => 0
  | b :: bs => b + 256 * bytesToNat bs

/-- `Buffer.from(new Float64Array(vec).buffer)`: concatenation of the
eight-byte little-endian encodings of the 64-bit patterns. -/
def MemoryDB.encodeEmbedding (vec : List ℕ) : List ℕ :=
  vec.flatMap (natToBytes 8)

/-- Split a byte list into consecutive 8-byte groups and decode each. -/
def decodeChunks : List ℕ → List ℕ
  | [] => []
  | b :: bs => bytesToNat (b :: bs.take 7) :: decodeChunks (bs.drop 7)
termination_by l => l.length
decreasing_by simp only [List.length_cons, List.length_drop]; omega

/-- `new Float64Array(blob.buffer.slice(...))`: fails (throws `RangeError`,
modelled as `none`) when the byte length is not a multiple of 8, otherwise
reads the buffer back as 64-bit floats. -/
def MemoryDB.decodeEmbedding (blob : List ℕ) : Option (List ℕ) :=
  if blob.length % 8 = 0 then some (decodeChunks blob) else none

theorem bytesToNat_natToBytes (n : ℕ) (x : ℕ) (hx : x < 256 ^ n) :
    bytesToNat (natToBytes n x) = x := by
  induction n generalizing x with
  | zero => simpa [natToBytes, bytesToNat] using (Nat.lt_one_iff.mp hx).symm
  | succ n ih =>
    have hdiv : x / 256 < 256 ^ n := by
      rw [Nat.div_lt_iff_lt_mul (by norm_num)]
      calc x < 256 ^ (n + 1) := hx
        _ = 256 ^ n * 256 := by ring
    simp [natToBytes, bytesToNat, ih _ hdiv, Nat.mod_add_div]

theorem length_natToBytes (n : ℕ) (x : ℕ) : (natToBytes n x).length = n := by
  induction n generalizing x with
  | zero => rfl
  | succ n ih => simp [natToBytes, ih]

theorem decodeChunks_append (x : ℕ) (rest : List ℕ) (hx : x < 256 ^ 8) :
    decodeChunks (natToBytes 8 x ++ rest) = x :: decodeChunks rest := by
  have h8 : (natToBytes 8 x).length = 8 := length_natToBytes 8 x
  obtain ⟨b, bs, hb⟩ : ∃ b bs, natToBytes 8 x = b :: bs := by
    cases h : natToBytes 8 x with
    | nil => rw [h] at h8; simp at h8
    | cons b bs => exact ⟨b, bs, rfl⟩
  have hbs : bs.length = 7 := by
    have := h8; rw [hb] at this; simpa using this
  rw [hb, List.cons_append, decodeChunks]
  have htake : (bs ++ rest).take 7 = bs := by
    rw [List.take_append_of_le_length (le_of_eq hbs.symm), List.take_of_length_le (le_of_eq hbs)]
  have hdrop : (bs ++ rest).drop 7 = rest := by
    rw [List.drop_append_of_le_length (le_of_eq hbs.symm), List.drop_of_length_le (le_of_eq hbs)]
    simp
  rw [htake, hdrop, ← hb, bytesToNat_natToBytes 8 x hx]

theorem length_encodeEmbedding (v : List ℕ) :
    (MemoryDB.encodeEmbedding v).length = 8 * v.length := by
  induction v with
  | nil => rfl
  | cons x xs ih =>
    simp only [MemoryDB.encodeEmbedding, List.flatMap_cons, List.length_append,
      length_natToBytes, List.length_cons] at *
    omega

theorem decodeChunks_encodeEmbedding (v : List ℕ) (hv : ∀ x ∈ v, x < 2 ^ 64) :
    decodeChunks (MemoryDB.encodeEmbedding v) = v := by
  induction v with
  | nil => simp [MemoryDB.encodeEmbedding, decodeChunks]
  | cons x xs ih =>
    have hx : x < 256 ^ 8 := by
      have := hv x (by simp)
      calc x < 2 ^ 64 := this
        _ = 256 ^ 8 := by norm_num
    have ih2 := ih (fun y hy => hv y (by simp [hy]))
    simp only [MemoryDB.encodeEmbedding, List.flatMap_cons] at ih2 ⊢
    rw [decodeChunks_append x _ hx, ih2]

/-- C9 helper: full round trip at the list level. -/
theorem decode_encode (v : List ℕ) (hv : ∀ x ∈ v, x < 2 ^ 64) :
    MemoryDB.decodeEmbedding (MemoryDB.encodeEmbedding v) = some v := by
  rw [MemoryDB.decodeEmbedding, if_pos (by rw [length_encodeEmbedding]; omega),
    decodeChunks_encodeEmbedding v hv]

/-! ## Data model (`memory-db.ts`)

A `memories` row as the scan loop sees it: `embedding` is `none` when the
column is NULL or when `decodeEmbedding` throws (both lead to `continue` in
`vectorSearch`), otherwise the decoded float vector, idealised over `ℝ`. -/

structure MemRow where
  id : String
  content : String
  embedding : Option (List ℝ)
  created_at : ℤ
  source : String
  tags : List String
  category : String

/-- A `memory_edges` row. -/
structure Edge where
  id : String
  from_id : String
  to_id : String
  relation : String
  created_at : ℤ

/-- The two tables `delete`/`deleteBySource`/`store`/`vectorSearch` touch. -/
structure DB where
  memories : List MemRow
  edges : List Edge

/-- The `MemoryEntry` interface (decoded row returned to callers). -/
structure MemoryEntry where
  id : String
  content : String
  embedding : List ℝ
  created_at : ℤ
  source : String
  tags : List String
  category : String

/-- The `MemorySearchResult` interface. -/
structure MemorySearchResult where
  entry : MemoryEntry
  score : ℝ

/-! ## UUID shape validation (`MemoryDB.delete`)

The regex `/^[0-9a-f]{8}-[0-9a-f]{4}-[0-9a-f]{4}-[0-9a-f]{4}-[0-9a-f]{12}$/i`
anchored at both ends, case-insensitive. -/

/-- A character the `[0-9a-f]` class accepts under the `i` flag. -/
def isHexDigit (c : Char) : Bool :=
  (('0' ≤ c && c ≤ '9') || ('a' ≤ c && c ≤ 'f') || ('A' ≤ c && c ≤ 'F'))

/-- Consume exactly `n` hex digits, returning the rest of the input. -/
def hexRun : ℕ → List Char → Option (List Char)
  | 0, rest => some rest
  | _ + 1, [] => none
  | n + 1, c :: rest => if isHexDigit c then hexRun n rest else none

/-- Whether `s` matches the anchored UUID regex of `MemoryDB.delete`. -/
def isUuidFormat (s : String) : Bool :=
  match hexRun 8 s.data with
  | some ('-' :: r1) =>
    match hexRun 4 r1 with
    | some ('-' :: r2) =>
      match hexRun 4 r2 with
      | some ('-' :: r3) =>
        match hexRun 4 r3 with
        | some ('-' :: r4) =>
          match hexRun 12 r4 with
          | some [] => true
          | _ => false
        | _ => false
      | _ => false
    | _ => false
  | _ => false

/-! ## Delete operations (`MemoryDB.delete`, `deleteBySource`) -/

/-- `DELETE FROM memory_edges WHERE from_id = ? OR to_id = ?`. -/
def deleteEdgesFor (i : String) (edges : List Edge) : List Edge :=
  edges.filter (fun e => !(e.from_id == i || e.to_id == i))

/-- `MemoryDB.delete`: validates the id shape (throwing `Invalid memory ID`
on mismatch before touching any table), then removes the edges referencing
the id and the memory row itself, and returns `true`. -/
def MemoryDB.delete (db : DB) (i : String) : Except String (DB × Bool) :=
  if isUuidFormat i then
    Except.ok ({ memories := db.memories.filter (fun r => !(r.id == i)),
                 edges := deleteEdgesFor i db.edges }, true)
  else
    Except.error ("Invalid memory ID: " ++ i)

/-- `MemoryDB.deleteBySource`: collects the ids with the given source,
deletes the edges referencing each collected id, then deletes the rows with
that source and returns the number of rows removed. -/
def MemoryDB.deleteBySource (db : DB) (s : String) : DB × ℕ :=
  let ids := (db.memories.filter (fun r => r.source == s)).map (fun r => r.id)
  ({ memories := db.memories.filter (fun r => !(r.source == s)),
     edges := ids.foldl (fun es i => deleteEdgesFor i es) db.edges },
   (db.memories.filter (fun r => r.source == s)).length)

/-- Referential integrity of `memory_edges`: every edge endpoint names an
existing memory row. -/
def DB.refIntegrity (db : DB) : Prop :=
  ∀ e ∈ db.edges, (∃ r ∈ db.memories, r.id = e.from_id) ∧
    ∃ r ∈ db.memories, r.id = e.to_id

theorem mem_deleteEdgesFor {e : Edge} {i : String} {edges : List Edge} :
    e ∈ deleteEdgesFor i edges ↔ e ∈ edges ∧ e.from_id ≠ i ∧ e.to_id ≠ i := by
  simp [deleteEdgesFor, List.mem_filter, not_or, and_assoc]

theorem mem_foldl_deleteEdgesFor {e : Edge} (ids : List String) (edges : List Edge) :
    e ∈ ids.foldl (fun es i => deleteEdgesFor i es) edges ↔
      e ∈ edges ∧ ∀ i ∈ ids, e.from_id ≠ i ∧ e.to_id ≠ i := by
  induction ids generalizing edges with
  | nil => simp
  | cons j js ih =>
    simp only [List.foldl_cons, ih, mem_deleteEdgesFor, List.mem_cons]
    constructor
    · rintro ⟨⟨he, hf, ht⟩, hall⟩
      exact ⟨he, fun i hi => hi.elim (fun h => h ▸ ⟨hf, ht⟩) (hall i)⟩
    · rintro ⟨he, hall⟩
      exact ⟨⟨he, (hall j (Or.inl rfl)).1, (hall j (Or.inl rfl)).2⟩,
        fun i hi => hall i (Or.inr hi)⟩

/-! ## Concrete fixtures for witnesses -/

/-- A well-formed UUID-shaped id (all-zero digits). -/
def uuid0 : String := "00000000-0000-0000-0000-000000000000"

/-- Another well-formed UUID-shaped id. -/
def uuid1 : String := "11111111-1111-1111-1111-111111111111"

/-- A memory row with no embedding (NULL column). -/
def rowNull : MemRow :=
  { id := "a", content := "placeholder", embedding := none, created_at := 0,
    source := "vscode:chat", tags := [], category := "other" }

/-- A database with one memory and no edges; `uuid0` is absent. -/
def dbA : DB := { memories := [rowNull], edges := [] }

/-- A database holding two memories (ids `uuid0`, `uuid1`) and one edge
between them. -/
def dbEdge : DB :=
  { memories :=
      [{ id := uuid0, content := "x", embedding := none, created_at := 0,
         source := "s0", tags := [], category := "other" },
       { id := uuid1, content := "y", embedding := none, created_at := 1,
         source := "s1", tags := [], category := "other" }],
    edges :=
      [{ id := "e", from_id := uuid0, to_id := uuid1, relation := "related",
         created_at := 2 }] }

/-! ## Claim theorems: deletes and the codec -/

/-- C6: for every input string that does not match the UUID-v4 textual
shape, `delete(id)` fails with the `Invalid memory ID` validation error —
it never returns a database, so both `memories` and `memory_edges` are left
unchanged and the failure is not a silent no-op. -/
theorem claim_C6_delete_rejects_malformed_id (db : DB) (i : String)
    (h : isUuidFormat i = false) :
    MemoryDB.delete db i = Except.error ("Invalid memory ID: " ++ i) ∧
    ∀ db2 b, MemoryDB.delete db i ≠ Except.ok (db2, b) := by
  refine ⟨by simp [MemoryDB.delete, h], ?_⟩
  intro db2 b hok
  rw [MemoryDB.delete, h] at hok
  simp at hok

/-- C6 witness: a malformed id on a concrete database is rejected. -/
theorem claim_C6_witness :
    MemoryDB.delete dbA "not-a-uuid" = Except.error ("Invalid memory ID: " ++ "not-a-uuid") :=
  (claim_C6_delete_rejects_malformed_id dbA "not-a-uuid" (by decide)).1

/-- C10: for every UUID-shaped string, `delete(id)` returns `true` and
raises no error even when no memory with that id exists: on an id absent
from both tables the database is returned unchanged, and the `Bool` result
is `true` in all success cases, never distinguishing whether a row was
removed. -/
theorem claim_C10_delete_absent_id_silent_success (db : DB) (i : String)
    (h : isUuidFormat i = true) :
    MemoryDB.delete db i =
      Except.ok ({ memories := db.memories.filter (fun r => !(r.id == i)),
                   edges := deleteEdgesFor i db.edges }, true) ∧
    ((∀ r ∈ db.memories, r.id ≠ i) → (∀ e ∈ db.edges, e.from_id ≠ i ∧ e.to_id ≠ i) →
      MemoryDB.delete db i = Except.ok (db, true)) := by
  constructor
  · simp [MemoryDB.delete, h]
  · intro hmem hedge
    rw [MemoryDB.delete, h]
    have h1 : db.memories.filter (fun r => !(r.id == i)) = db.memories := by
      rw [List.filter_eq_self]
      intro r hr
      simpa using hmem r hr
    have h2 : deleteEdgesFor i db.edges = db.edges := by
      rw [deleteEdgesFor, List.filter_eq_self]
      intro e he
      have := hedge e he
      simp [this.1, this.2]
    rw [if_pos rfl, h1, h2]

/-- C10 witness: deleting the absent well-formed id `uuid0` from a concrete
nonempty database reports success and changes nothing. -/
theorem claim_C10_witness : MemoryDB.delete dbA uuid0 = Except.ok (dbA, true) :=
  (claim_C10_delete_absent_id_silent_success dbA uuid0 (by decide)).2
    (by decide) (by decide)

/-- C7: every successful `delete(id)` removes each edge whose `from_id` or
`to_id` equals the id, and `deleteBySource` removes each edge referencing a
removed id; both preserve referential integrity of `memory_edges`. -/
theorem claim_C7_delete_cascades_edges :
    (∀ db i db2 b, MemoryDB.delete db i = Except.ok (db2, b) →
      ((∀ e ∈ db2.edges, e.from_id ≠ i ∧ e.to_id ≠ i) ∧
       (DB.refIntegrity db → DB.refIntegrity db2))) ∧
    (∀ db s,
      (∀ e ∈ (MemoryDB.deleteBySource db s).1.edges,
        ∀ r ∈ db.memories, r.source = s → e.from_id ≠ r.id ∧ e.to_id ≠ r.id) ∧
      (DB.refIntegrity db → DB.refIntegrity (MemoryDB.deleteBySource db s).1)) := by
  constructor
  · intro db i db2 b hok
    have hdb2 : db2 = { memories := db.memories.filter (fun r => !(r.id == i)),
                        edges := deleteEdgesFor i db.edges } := by
      rw [MemoryDB.delete] at hok
      by_cases h : isUuidFormat i
      · rw [if_pos h] at hok
        exact congrArg Prod.fst (Except.ok.inj hok) |>.symm
      · rw [if_neg h] at hok
        exact absurd hok (by simp)
    subst hdb2
    constructor
    · intro e he
      exact (mem_deleteEdgesFor.mp he).2
    · intro hint e he
      obtain ⟨he0, hf, ht⟩ := mem_deleteEdgesFor.mp he
      obtain ⟨⟨rf, hrf, hrfid⟩, ⟨rt, hrt, hrtid⟩⟩ := hint e he0
      constructor
      · exact ⟨rf, List.mem_filter.mpr ⟨hrf, by simp [hrfid, hf]⟩, hrfid⟩
      · exact ⟨rt, List.mem_filter.mpr ⟨hrt, by simp [hrtid, ht]⟩, hrtid⟩
  · intro db s
    have hedges : (MemoryDB.deleteBySource db s).1.edges =
        ((db.memories.filter (fun r => r.source == s)).map (fun r => r.id)).foldl
          (fun es i => deleteEdgesFor i es) db.edges := rfl
    constructor
    · intro e he r hr hrs
      rw [hedges] at he
      have hall := (mem_foldl_deleteEdgesFor _ _).mp he |>.2
      exact hall r.id (List.mem_map_of_mem _ (List.mem_filter.mpr ⟨hr, by simp [hrs]⟩))
    · intro hint e he
      rw [hedges] at he
      obtain ⟨he0, hall⟩ := (mem_foldl_deleteEdgesFor _ _).mp he
      obtain ⟨⟨rf, hrf, hrfid⟩, ⟨rt, hrt, hrtid⟩⟩ := hint e he0
      have hkeep : ∀ r ∈ db.memories, r.id = e.from_id ∨ r.id = e.to_id →
          r ∈ (MemoryDB.deleteBySource db s).1.memories := by
        intro r hr hrid
        have hsrc : (r.source == s) = false := by
          by_contra hcon
          have hs : (r.source == s) = true := by
            cases hb : (r.source == s) <;> simp [hb] at hcon ⊢
          have hmem : r.id ∈ (db.memories.filter (fun r => r.source == s)).map
              (fun r => r.id) :=
            List.mem_map_of_mem _ (List.mem_filter.mpr ⟨hr, hs⟩)
          rcases hrid with h | h
          · exact (hall r.id hmem).1 h.symm
          · exact (hall r.id hmem).2 h.symm
        exact List.mem_filter.mpr ⟨hr, by simp [hsrc]⟩
      exact ⟨⟨rf, hkeep rf hrf (Or.inl hrfid), hrfid⟩,
        ⟨rt, hkeep rt hrt (Or.inr hrtid), hrtid⟩⟩

/-- C7 witness: deleting `uuid0` (or bulk-deleting source `s0`) from a
concrete database removes the edge that referenced the removed memory. -/
theorem claim_C7_witness :
    (MemoryDB.deleteBySource dbEdge "s0").1.edges = [] ∧
    (∃ db2, MemoryDB.delete dbEdge uuid0 = Except.ok (db2, true) ∧ db2.edges = []) := by
  refine ⟨rfl, ⟨{ memories := dbEdge.memories.filter (fun r => !(r.id == uuid0)),
                  edges := deleteEdgesFor uuid0 dbEdge.edges }, rfl, rfl⟩⟩

/-- C9: decoding the result of encoding any vector of 64-bit floats yields
the original sequence exactly, bit-for-bit per 64-bit element (each float is
represented by its 64-bit pattern). -/
theorem claim_C9_encode_decode_roundtrip (v : List ℕ) (hv : ∀ x ∈ v, x < 2 ^ 64) :
    MemoryDB.decodeEmbedding (MemoryDB.encodeEmbedding v) = some v :=
  decode_encode v hv

/-- C9 witness: round trip at a concrete vector, including the largest
64-bit pattern. -/
theorem claim_C9_witness :
    MemoryDB.decodeEmbedding (MemoryDB.encodeEmbedding [0, 1, 4607182418800017408,
      18446744073709551615]) = some [0, 1, 4607182418800017408, 18446744073709551615] :=
  claim_C9_encode_decode_roundtrip _ (by decide)

/-! ## Similarity engine (`cosineSimilarity`)

The loop accumulates `dot`, `normA`, `normB` for `i < min(a.length, b.length)`
and returns `0` when `sqrt(normA) * sqrt(normB)` is zero, else the quotient.
Float arithmetic is idealised over `ℝ`. -/

/-- `cosineSimilarity(a, b)` from `memory-db.ts`. -/
noncomputable def cosineSimilarity (a b : List ℝ) : ℝ :=
  let len := min a.length b.length
  let dot := ∑ i ∈ Finset.range len, a.getD i 0 * b.getD i 0
  let normA := ∑ i ∈ Finset.range len, a.getD i 0 * a.getD i 0
  let normB := ∑ i ∈ Finset.range len, b.getD i 0 * b.getD i 0
  let denom := Real.sqrt normA * Real.sqrt normB
  if denom = 0 then 0 else dot / denom


theorem cosineSimilarity_bounds (a b : List ℝ) :
    -1 ≤ cosineSimilarity a b ∧ cosineSimilarity a b ≤ 1 := by
  rw [cosineSimilarity]
  set len := min a.length b.length with hlen
  set dot := ∑ i ∈ Finset.range len, a.getD i 0 * b.getD i 0 with hdot
  set normA := ∑ i ∈ Finset.range len, a.getD i 0 * a.getD i 0 with hnA
  set normB := ∑ i ∈ Finset.range len, b.getD i 0 * b.getD i 0 with hnB
  by_cases h : Real.sqrt normA * Real.sqrt normB = 0
  · rw [if_pos h]; norm_num
  · rw [if_neg h]
    have hA0 : 0 ≤ normA := Finset.sum_nonneg fun i _ => mul_self_nonneg _
    have hB0 : 0 ≤ normB := Finset.sum_nonneg fun i _ => mul_self_nonneg _
    have hpos : 0 < Real.sqrt normA * Real.sqrt normB :=
      lt_of_le_of_ne (mul_nonneg (Real.sqrt_nonneg _) (Real.sqrt_nonneg _)) (Ne.symm h)
    have ha2 : normA = ∑ i ∈ Finset.range len, (a.getD i 0) ^ 2 := by
      rw [hnA]
      exact Finset.sum_congr rfl fun i _ => (pow_two _).symm
    have hb2 : normB = ∑ i ∈ Finset.range len, (b.getD i 0) ^ 2 := by
      rw [hnB]
      exact Finset.sum_congr rfl fun i _ => (pow_two _).symm
    have hcs : dot ^ 2 ≤ normA * normB := by
      rw [ha2, hb2]
      exact Finset.sum_mul_sq_le_sq_mul_sq (Finset.range len)
        (fun i => a.getD i 0) (fun i => b.getD i 0)
    have habs : |dot| ≤ Real.sqrt normA * Real.sqrt normB := by
      calc |dot| = Real.sqrt (dot ^ 2) := (Real.sqrt_sq_eq_abs dot).symm
        _ ≤ Real.sqrt (normA * normB) := Real.sqrt_le_sqrt hcs
        _ = Real.sqrt normA * Real.sqrt normB := Real.sqrt_mul hA0 _
    rw [abs_le] at habs
    constructor
    · rw [le_div_iff hpos]; linarith [habs.1]
    · rw [div_le_one hpos]; exact habs.2

theorem cosineSimilarity_zero_norm (a b : List ℝ)
    (h : (∑ i ∈ Finset.range (min a.length b.length), a.getD i 0 * a.getD i 0) = 0 ∨
         (∑ i ∈ Finset.range (min a.length b.length), b.getD i 0 * b.getD i 0) = 0) :
    cosineSimilarity a b = 0 := by
  simp only [cosineSimilarity]
  rcases h with h | h
  · rw [h, Real.sqrt_zero, zero_mul, if_pos rfl]
  · rw [h, Real.sqrt_zero, mul_zero, if_pos rfl]

theorem getD_take_of_lt {l : List ℝ} {n i : ℕ} (h : i < n) :
    (l.take n).getD i 0 = l.getD i 0 := by
  show ((l.take n).get? i).getD 0 = (l.get? i).getD 0
  rw [List.get?_take h]

theorem cosineSimilarity_truncates (a b : List ℝ) :
    cosineSimilarity a b = cosineSimilarity (a.take b.length) (b.take a.length) := by
  have hm : min (a.take b.length).length (b.take a.length).length
      = min a.length b.length := by
    simp only [List.length_take]
    omega
  have hlt : ∀ i ∈ Finset.range (min a.length b.length),
      (a.take b.length).getD i 0 = a.getD i 0 := fun i hi =>
    getD_take_of_lt (lt_of_lt_of_le (Finset.mem_range.mp hi) (min_le_right _ _))
  have hlt2 : ∀ i ∈ Finset.range (min a.length b.length),
      (b.take a.length).getD i 0 = b.getD i 0 := fun i hi =>
    getD_take_of_lt (lt_of_lt_of_le (Finset.mem_range.mp hi) (min_le_left _ _))
  have e1 : (∑ i ∈ Finset.range (min a.length b.length),
        (a.take b.length).getD i 0 * (b.take a.length).getD i 0)
      = ∑ i ∈ Finset.range (min a.length b.length), a.getD i 0 * b.getD i 0 :=
    Finset.sum_congr rfl fun i hi => by rw [hlt i hi, hlt2 i hi]
  have e2 : (∑ i ∈ Finset.range (min a.length b.length),
        (a.take b.length).getD i 0 * (a.take b.length).getD i 0)
      = ∑ i ∈ Finset.range (min a.length b.length), a.getD i 0 * a.getD i 0 :=
    Finset.sum_congr rfl fun i hi => by rw [hlt i hi]
  have e3 : (∑ i ∈ Finset.range (min a.length b.length),
        (b.take a.length).getD i 0 * (b.take a.length).getD i 0)
      = ∑ i ∈ Finset.range (min a.length b.length), b.getD i 0 * b.getD i 0 :=
    Finset.sum_congr rfl fun i hi => by rw [hlt2 i hi]
  rw [cosineSimilarity, cosineSimilarity, hm, e1, e2, e3]

/-- C3 counterexample: for `a = [1]`, `b = [-1]` the function returns `-1`,
which is negative, so the returned score does not lie in `[0,1]`. -/
theorem claim_C3_counterexample :
    cosineSimilarity [1] [-1] = -1 ∧ cosineSimilarity [1] [-1] < 0 := by
  have h : cosineSimilarity [1] [-1] = -1 := by
    simp only [cosineSimilarity]
    norm_num [Finset.sum_range_succ]
  exact ⟨h, by rw [h]; norm_num⟩

/-- C3 (amended): `similarity(a, b)` is cosine similarity computed over the
shared prefix of length `min(len(a), len(b))`, the returned score lies in
`[-1, 1]`, and the function returns `0` (never dividing by zero) whenever
either vector has zero magnitude over that prefix. -/
theorem claim_C3_cosine_similarity (a b : List ℝ) :
    cosineSimilarity a b = cosineSimilarity (a.take b.length) (b.take a.length) ∧
    -1 ≤ cosineSimilarity a b ∧ cosineSimilarity a b ≤ 1 ∧
    (((∑ i ∈ Finset.range (min a.length b.length), a.getD i 0 * a.getD i 0) = 0 ∨
      (∑ i ∈ Finset.range (min a.length b.length), b.getD i 0 * b.getD i 0) = 0) →
      cosineSimilarity a b = 0) :=
  ⟨cosineSimilarity_truncates a b, (cosineSimilarity_bounds a b).1,
   (cosineSimilarity_bounds a b).2, cosineSimilarity_zero_norm a b⟩

/-- C3 witness: a zero-magnitude vector yields score `0` without a division
error. -/
theorem claim_C3_witness : cosineSimilarity [0] [5] = 0 :=
  (claim_C3_cosine_similarity [0] [5]).2.2.2
    (Or.inl (by norm_num [Finset.sum_range_succ]))

/-! ## Linear similarity scan (`MemoryDB.vectorSearch`)

The loop body: skip rows with a NULL or undecodable embedding, score the
rest, keep those at or above `minScore`; then
`results.sort((a, b) => b.score - a.score).slice(0, limit)`. -/

noncomputable instance : DecidableRel (fun a b : MemorySearchResult => b.score ≤ a.score) :=
  fun _ _ => inferInstanceAs (Decidable (_ ≤ _))

instance : IsTotal MemorySearchResult (fun a b => b.score ≤ a.score) :=
  ⟨fun a b => le_total b.score a.score⟩

instance : IsTrans MemorySearchResult (fun a b => b.score ≤ a.score) :=
  ⟨fun _ _ _ hab hbc => le_trans hbc hab⟩

/-- One iteration of the `vectorSearch` row loop: `none` both for the
`continue` on a missing/corrupt embedding and for a score below
`minScore`. -/
noncomputable def vectorSearchRow (queryEmbedding : List ℝ) (minScore : ℝ)
    (row : MemRow) : Option MemorySearchResult :=
  match row.embedding with
  | none => none
  | some stored =>
    if minScore ≤ cosineSimilarity queryEmbedding stored then
      some { entry := { id := row.id, content := row.content, embedding := stored,
                        created_at := row.created_at, source := row.source,
                        tags := row.tags, category := row.category },
             score := cosineSimilarity queryEmbedding stored }
    else none

/-- `results.sort((a, b) => b.score - a.score)`: sort by descending score. -/
noncomputable def sortByScoreDesc (l : List MemorySearchResult) : List MemorySearchResult :=
  l.insertionSort (fun a b => b.score ≤ a.score)

/-- `MemoryDB.vectorSearch`: full-table scan, filter by `minScore`, sort
descending by score, truncate to `limit`. -/
noncomputable def MemoryDB.vectorSearch (db : DB) (queryEmbedding : List ℝ)
    (limit : ℕ) (minScore : ℝ) : List MemorySearchResult :=
  (sortByScoreDesc (db.memories.filterMap
    (vectorSearchRow queryEmbedding minScore))).take limit

/-- Per-category boost table (`boostCategories[category]`, `none` when the
key is absent). -/
def BoostTable := String → Option ℝ

/-- The boost mutation: `if (boost) r.score = Math.min(r.score * boost, 1.0)`
(a present key with value `0` is falsy in JavaScript, hence no change). -/
noncomputable def applyBoost (boostCategories : BoostTable)
    (r : MemorySearchResult) : MemorySearchResult :=
  match boostCategories r.entry.category with
  | none => r
  | some boost =>
    if boost = 0 then r else { r with score := min (r.score * boost) 1 }

/-- `MemoryDB.vectorSearchBoosted`: same scan over `limit * 2` candidates,
boost per category, re-sort descending, truncate to `limit`. -/
noncomputable def MemoryDB.vectorSearchBoosted (db : DB) (queryEmbedding : List ℝ)
    (limit : ℕ) (minScore : ℝ) (boostCategories : BoostTable) :
    List MemorySearchResult :=
  (sortByScoreDesc ((MemoryDB.vectorSearch db queryEmbedding (limit * 2)
    minScore).map (applyBoost boostCategories))).take limit

/-! ## Dedup-on-write (`MemoryDB.store`)

`randomUUID()` and `Date.now()` are passed as `freshId` and `now`. -/

/-- The optional `opts` argument of `store`. -/
structure StoreOpts where
  source : Option String
  tags : Option (List String)
  category : Option String
  dedupeThreshold : Option ℝ

/-- The result record of `store`. -/
structure StoreOutcome where
  entry : MemoryEntry
  isDuplicate : Bool
  updatedId : Option String

/-- `MemoryDB.store`: scans for the best match at the dedupe threshold
(default `0.95`); on a hit, `UPDATE`s the matched row in place (category
falling back to the existing record's) and reports the duplicate; otherwise
`INSERT`s a new row under the fresh id. -/
noncomputable def MemoryDB.store (db : DB) (content : String) (embedding : List ℝ)
    (opts : StoreOpts) (freshId : String) (now : ℤ) : DB × StoreOutcome :=
  match MemoryDB.vectorSearch db embedding 1 (opts.dedupeThreshold.getD (95 / 100)) with
  | ex :: _ =>
    ({ db with memories := db.memories.map (fun r =>
        if r.id = ex.entry.id then
          { id := r.id, content := content, embedding := some embedding,
            created_at := now, source := opts.source.getD "",
            tags := opts.tags.getD [],
            category := opts.category.getD ex.entry.category }
        else r) },
     { entry := { ex.entry with
         content := content,
         embedding := embedding,
         created_at := now },
       isDuplicate := true, updatedId := some ex.entry.id })
  | [] =>
    ({ db with memories := db.memories ++
        [{ id := freshId, content := content, embedding := some embedding,
           created_at := now, source := opts.source.getD "",
           tags := opts.tags.getD [], category := opts.category.getD "other" }] },
     { entry := { id := freshId, content := content, embedding := embedding,
                  created_at := now, source := opts.source.getD "",
                  tags := opts.tags.getD [], category := opts.category.getD "other" },
       isDuplicate := false, updatedId := none })

/-! ## Properties of the scan pipeline -/

theorem sortByScoreDesc_perm (l : List MemorySearchResult) :
    List.Perm (sortByScoreDesc l) l :=
  List.perm_insertionSort _ l

theorem sortByScoreDesc_sorted (l : List MemorySearchResult) :
    List.Sorted (fun a b => b.score ≤ a.score) (sortByScoreDesc l) :=
  List.sorted_insertionSort _ l

theorem vectorSearchRow_eq_some {q : List ℝ} {m : ℝ} {row : MemRow}
    {r : MemorySearchResult} (h : vectorSearchRow q m row = some r) :
    ∃ v, row.embedding = some v ∧ m ≤ cosineSimilarity q v ∧
      r = { entry := { id := row.id, content := row.content, embedding := v,
                       created_at := row.created_at, source := row.source,
                       tags := row.tags, category := row.category },
            score := cosineSimilarity q v } := by
  cases hemb : row.embedding with
  | none =>
    simp only [vectorSearchRow, hemb] at h
    exact absurd h (by simp)
  | some v =>
    simp only [vectorSearchRow, hemb] at h
    by_cases hm : m ≤ cosineSimilarity q v
    · rw [if_pos hm] at h
      exact ⟨v, rfl, hm, (Option.some.inj h).symm⟩
    · rw [if_neg hm] at h
      exact absurd h (by simp)

theorem vectorSearchRow_eq_some_of {q : List ℝ} {m : ℝ} {row : MemRow} {v : List ℝ}
    (hemb : row.embedding = some v) (hm : m ≤ cosineSimilarity q v) :
    vectorSearchRow q m row =
      some { entry := { id := row.id, content := row.content, embedding := v,
                        created_at := row.created_at, source := row.source,
                        tags := row.tags, category := row.category },
             score := cosineSimilarity q v } := by
  simp only [vectorSearchRow, hemb]
  rw [if_pos hm]

theorem vectorSearchRow_eq_none {q : List ℝ} {m : ℝ} {row : MemRow}
    (h : ∀ v, row.embedding = some v → cosineSimilarity q v < m) :
    vectorSearchRow q m row = none := by
  cases hemb : row.embedding with
  | none => simp [vectorSearchRow, hemb]
  | some v =>
    simp only [vectorSearchRow, hemb]
    rw [if_neg (not_le.mpr (h v hemb))]

theorem mem_vectorSearch {db : DB} {q : List ℝ} {limit : ℕ} {m : ℝ}
    {r : MemorySearchResult} (h : r ∈ MemoryDB.vectorSearch db q limit m) :
    ∃ row ∈ db.memories, vectorSearchRow q m row = some r := by
  have h1 : r ∈ sortByScoreDesc (db.memories.filterMap (vectorSearchRow q m)) :=
    List.mem_of_mem_take h
  have h2 : r ∈ db.memories.filterMap (vectorSearchRow q m) :=
    (sortByScoreDesc_perm _).mem_iff.mp h1
  exact List.mem_filterMap.mp h2

/-- C2: `vectorSearch` returns results sorted in descending score order,
with at most `limit` entries, none scoring below `minScore`, and every
returned entry decodes from a stored row whose embedding is present (rows
with a missing or undecodable embedding are skipped, never an error). -/
theorem claim_C2_vectorSearch_contract (db : DB) (q : List ℝ) (limit : ℕ)
    (minScore : ℝ) :
    List.Sorted (fun a b : MemorySearchResult => b.score ≤ a.score)
      (MemoryDB.vectorSearch db q limit minScore) ∧
    (MemoryDB.vectorSearch db q limit minScore).length ≤ limit ∧
    (∀ r ∈ MemoryDB.vectorSearch db q limit minScore, minScore ≤ r.score) ∧
    (∀ r ∈ MemoryDB.vectorSearch db q limit minScore,
      ∃ row ∈ db.memories, row.embedding = some r.entry.embedding ∧
        r.score = cosineSimilarity q r.entry.embedding) := by
  refine ⟨?_, ?_, ?_, ?_⟩
  · exact List.Pairwise.sublist (List.take_sublist _ _) (sortByScoreDesc_sorted _)
  · rw [MemoryDB.vectorSearch]
    exact List.length_take_le _ _
  · intro r hr
    obtain ⟨row, _, hrow⟩ := mem_vectorSearch hr
    obtain ⟨v, _, hm, hre⟩ := vectorSearchRow_eq_some hrow
    rw [hre]
    exact hm
  · intro r hr
    obtain ⟨row, hmem, hrow⟩ := mem_vectorSearch hr
    obtain ⟨v, hemb, _, hre⟩ := vectorSearchRow_eq_some hrow
    exact ⟨row, hmem, by rw [hre]; exact hemb, by rw [hre]⟩

/-- C2 witness: the contract applied at a concrete query and store. -/
theorem claim_C2_witness :
    (MemoryDB.vectorSearch dbA [1, 0, 0, 0] 5 (3 / 10)).length ≤ 5 :=
  (claim_C2_vectorSearch_contract dbA [1, 0, 0, 0] 5 (3 / 10)).2.1

theorem vectorSearch_eq_nil_iff {db : DB} {q : List ℝ} {m : ℝ} {limit : ℕ}
    (hl : limit ≠ 0) :
    MemoryDB.vectorSearch db q limit m = [] ↔
      ∀ row ∈ db.memories, vectorSearchRow q m row = none := by
  rw [MemoryDB.vectorSearch]
  constructor
  · intro h
    rcases List.take_eq_nil_iff.mp h with h0 | h0
    · exact absurd h0 hl
    · have hp := sortByScoreDesc_perm (db.memories.filterMap (vectorSearchRow q m))
      rw [h0] at hp
      exact fun row hrow => List.filterMap_eq_nil.mp hp.symm.eq_nil row hrow
  · intro h
    rw [List.filterMap_eq_nil.mpr h]
    simp [sortByScoreDesc, List.insertionSort]

theorem vectorSearch_head_max {db : DB} {q : List ℝ} {m : ℝ} {limit : ℕ}
    {r : MemorySearchResult} {rest : List MemorySearchResult}
    (h : MemoryDB.vectorSearch db q limit m = r :: rest) :
    ∀ row ∈ db.memories, ∀ v, row.embedding = some v →
      m ≤ cosineSimilarity q v → cosineSimilarity q v ≤ r.score := by
  intro row hrow v hemb hm
  have hcand : ({ entry := { id := row.id, content := row.content, embedding := v,
                             created_at := row.created_at, source := row.source,
                             tags := row.tags, category := row.category },
                  score := cosineSimilarity q v } : MemorySearchResult) ∈
      db.memories.filterMap (vectorSearchRow q m) :=
    List.mem_filterMap.mpr ⟨row, hrow, vectorSearchRow_eq_some_of hemb hm⟩
  have hcand2 := (sortByScoreDesc_perm _).mem_iff.mpr hcand
  rw [MemoryDB.vectorSearch] at h
  cases hL : sortByScoreDesc (db.memories.filterMap (vectorSearchRow q m)) with
  | nil => rw [hL] at h; simp at h
  | cons x L =>
    have hx : x = r := by
      cases limit with
      | zero => rw [hL] at h; simp at h
      | succ n =>
        rw [hL, List.take_succ_cons] at h
        exact (List.cons.inj h).1
    have hs := sortByScoreDesc_sorted (db.memories.filterMap (vectorSearchRow q m))
    rw [hL, hx] at hs hcand2
    rcases List.mem_cons.mp hcand2 with hc | hc
    · rw [← hc]
    · exact List.rel_of_sorted_cons hs _ hc

/-- C1: `store` with a best match at or above the dedupe threshold (default
0.95) overwrites that record in place — content, embedding, created_at,
source and tags replaced, category kept from the existing record unless
explicitly provided — reporting `isDuplicate = true` with `updatedId` the
existing id and an unchanged row count; with every record strictly below
the threshold it inserts a new row under the fresh id and reports
`isDuplicate = false`. -/
theorem claim_C1_store_dedupe (db : DB) (content : String) (emb : List ℝ)
    (opts : StoreOpts) (freshId : String) (now : ℤ) :
    ((∃ row ∈ db.memories, ∃ v, row.embedding = some v ∧
        opts.dedupeThreshold.getD (95 / 100) ≤ cosineSimilarity emb v) →
      ((MemoryDB.store db content emb opts freshId now).2.isDuplicate = true ∧
       (MemoryDB.store db content emb opts freshId now).1.memories.length =
         db.memories.length ∧
       ∃ ex ∈ db.memories, ∃ v, ex.embedding = some v ∧
         opts.dedupeThreshold.getD (95 / 100) ≤ cosineSimilarity emb v ∧
         (∀ row ∈ db.memories, ∀ w, row.embedding = some w →
           cosineSimilarity emb w ≤ cosineSimilarity emb v) ∧
         (MemoryDB.store db content emb opts freshId now).2.updatedId = some ex.id ∧
         (MemoryDB.store db content emb opts freshId now).1.memories =
           db.memories.map (fun r =>
             if r.id = ex.id then
               { id := r.id, content := content, embedding := some emb,
                 created_at := now, source := opts.source.getD "",
                 tags := opts.tags.getD [],
                 category := opts.category.getD ex.category }
             else r))) ∧
    ((∀ row ∈ db.memories, ∀ v, row.embedding = some v →
        cosineSimilarity emb v < opts.dedupeThreshold.getD (95 / 100)) →
      ((MemoryDB.store db content emb opts freshId now).2.isDuplicate = false ∧
       (MemoryDB.store db content emb opts freshId now).2.entry.id = freshId ∧
       (MemoryDB.store db content emb opts freshId now).2.updatedId = none ∧
       (MemoryDB.store db content emb opts freshId now).1.memories =
         db.memories ++
           [{ id := freshId, content := content, embedding := some emb,
              created_at := now, source := opts.source.getD "",
              tags := opts.tags.getD [], category := opts.category.getD "other" }])) := by
  constructor
  · rintro ⟨row0, hrow0, v0, hemb0, ht0⟩
    have hne : MemoryDB.vectorSearch db emb 1 (opts.dedupeThreshold.getD (95 / 100)) ≠ [] := by
      intro hnil
      have hall := (vectorSearch_eq_nil_iff one_ne_zero).mp hnil row0 hrow0
      rw [vectorSearchRow_eq_some_of hemb0 ht0] at hall
      exact absurd hall (by simp)
    obtain ⟨ex, rest, hvs⟩ := List.exists_cons_of_ne_nil hne
    obtain ⟨row, hrow, hrowsome⟩ := mem_vectorSearch (hvs ▸ List.mem_cons_self ex rest)
    obtain ⟨v, hemb, hm, hex⟩ := vectorSearchRow_eq_some hrowsome
    have hexid : ex.entry.id = row.id := by rw [hex]
    have hexcat : ex.entry.category = row.category := by rw [hex]
    have hexscore : ex.score = cosineSimilarity emb v := by rw [hex]
    refine ⟨?_, ?_, row, hrow, v, hemb, hm, ?_, ?_, ?_⟩
    · simp only [MemoryDB.store, hvs]
    · simp only [MemoryDB.store, hvs, List.length_map]
    · intro row2 hrow2 w hw
      by_cases hcase : opts.dedupeThreshold.getD (95 / 100) ≤ cosineSimilarity emb w
      · have := vectorSearch_head_max hvs row2 hrow2 w hw hcase
        rw [hexscore] at this
        exact this
      · push_neg at hcase
        linarith
    · simp only [MemoryDB.store, hvs, hexid]
    · simp only [MemoryDB.store, hvs, hexid, hexcat]
  · intro hall
    have hnil : MemoryDB.vectorSearch db emb 1 (opts.dedupeThreshold.getD (95 / 100)) = [] := by
      rw [vectorSearch_eq_nil_iff one_ne_zero]
      exact fun row hrow => vectorSearchRow_eq_none (fun v hv => hall row hrow v hv)
    simp only [MemoryDB.store, hnil]
    simp

/-- The unit query vector used by the concrete store/search witnesses. -/
def qVec : List ℝ := [1, 0, 0, 0]

/-- A row whose embedding equals the query vector exactly. -/
def rowQ : MemRow :=
  { id := "a", content := "Use tabs not spaces", embedding := some [1, 0, 0, 0],
    created_at := 0, source := "vscode:chat", tags := [], category := "preference" }

/-- One-row database for the dedupe witness. -/
def dbQ : DB := { memories := [rowQ], edges := [] }

/-- Empty `opts` (all defaults). -/
def opts0 : StoreOpts :=
  { source := none, tags := none, category := none, dedupeThreshold := none }

theorem cos_unit_self : cosineSimilarity [1, 0, 0, 0] [1, 0, 0, 0] = 1 := by
  simp only [cosineSimilarity]
  norm_num [Finset.sum_range_succ]

/-- C1 witness: re-storing content whose embedding matches an existing row
exactly reports a duplicate and keeps the row count at 1, while storing
into an empty store inserts (`isDuplicate = false`). -/
theorem claim_C1_witness :
    (MemoryDB.store dbQ "Please use tabs, never spaces" [1, 0, 0, 0] opts0 uuid1 5).2.isDuplicate
        = true ∧
    (MemoryDB.store dbQ "Please use tabs, never spaces" [1, 0, 0, 0] opts0 uuid1 5).1.memories.length
        = 1 ∧
    (MemoryDB.store { memories := [], edges := [] } "Please use tabs, never spaces"
        [1, 0, 0, 0] opts0 uuid1 5).2.isDuplicate = false := by
  have h := claim_C1_store_dedupe dbQ "Please use tabs, never spaces" [1, 0, 0, 0] opts0 uuid1 5
  have hdup := h.1 ⟨rowQ, by simp [dbQ], [1, 0, 0, 0], rfl, by
    simp only [opts0, Option.getD]
    rw [cos_unit_self]
    norm_num⟩
  have h2 := claim_C1_store_dedupe { memories := [], edges := [] }
    "Please use tabs, never spaces" [1, 0, 0, 0] opts0 uuid1 5
  have hins := h2.2 (by intro row hrow _ _; simp at hrow)
  exact ⟨hdup.1, by rw [hdup.2.1]; rfl, hins.1⟩

/-! ## Concrete boosted-search scenario (C8) -/

/-- A memory scoring `3/5` against `qVec`, in an unboosted category. -/
def rowS6 : MemRow :=
  { id := "hi", content := "c6", embedding := some [3, 4, 0, 0], created_at := 0,
    source := "s", tags := [], category := "other" }

/-- A memory scoring `2/5` against `qVec`, in the boosted category. -/
def rowS4 : MemRow :=
  { id := "lo", content := "c4", embedding := some [2, 4, 2, 1], created_at := 1,
    source := "s", tags := [], category := "preference" }

/-- Three-row store: both scored rows plus a row with no embedding. -/
def dbBoost : DB := { memories := [rowS6, rowS4, rowNull], edges := [] }

/-- Boost table giving category `preference` the multiplier `2.0`. -/
def boost2 : BoostTable := fun c => if c = "preference" then some 2 else none

/-- The search result produced from `rowS6`. -/
noncomputable def resS6 : MemorySearchResult :=
  { entry := { id := "hi", content := "c6", embedding := [3, 4, 0, 0],
               created_at := 0, source := "s", tags := [], category := "other" },
    score := 3 / 5 }

/-- The search result produced from `rowS4`. -/
noncomputable def resS4 : MemorySearchResult :=
  { entry := { id := "lo", content := "c4", embedding := [2, 4, 2, 1],
               created_at := 1, source := "s", tags := [], category := "preference" },
    score := 2 / 5 }

theorem cos_q_hi : cosineSimilarity [1, 0, 0, 0] [3, 4, 0, 0] = 3 / 5 := by
  have h25 : Real.sqrt 25 = 5 := by
    rw [show (25 : ℝ) = 5 ^ 2 by norm_num, Real.sqrt_sq (by norm_num)]
  simp only [cosineSimilarity]
  norm_num [Finset.sum_range_succ, h25]

theorem cos_q_lo : cosineSimilarity [1, 0, 0, 0] [2, 4, 2, 1] = 2 / 5 := by
  have h25 : Real.sqrt 25 = 5 := by
    rw [show (25 : ℝ) = 5 ^ 2 by norm_num, Real.sqrt_sq (by norm_num)]
  simp only [cosineSimilarity]
  norm_num [Finset.sum_range_succ, h25]

theorem vsRow_hi : vectorSearchRow [1, 0, 0, 0] (3 / 10) rowS6 = some resS6 := by
  rw [vectorSearchRow_eq_some_of (v := [3, 4, 0, 0]) rfl (by rw [cos_q_hi]; norm_num),
    cos_q_hi]
  rfl

theorem vsRow_lo : vectorSearchRow [1, 0, 0, 0] (3 / 10) rowS4 = some resS4 := by
  rw [vectorSearchRow_eq_some_of (v := [2, 4, 2, 1]) rfl (by rw [cos_q_lo]; norm_num),
    cos_q_lo]
  rfl

theorem vsRow_null : vectorSearchRow [1, 0, 0, 0] (3 / 10) rowNull = none := by
  simp [vectorSearchRow, rowNull]

theorem sortByScoreDesc_pair (x y : MemorySearchResult) :
    sortByScoreDesc [x, y] = if y.score ≤ x.score then [x, y] else [y, x] := by
  by_cases h : y.score ≤ x.score
  · simp [sortByScoreDesc, List.insertionSort, List.orderedInsert, h]
  · simp [sortByScoreDesc, List.insertionSort, List.orderedInsert, h]

theorem vsearch_dbBoost :
    MemoryDB.vectorSearch dbBoost [1, 0, 0, 0] 4 (3 / 10) = [resS6, resS4] := by
  rw [MemoryDB.vectorSearch]
  have hscan : dbBoost.memories.filterMap (vectorSearchRow [1, 0, 0, 0] (3 / 10))
      = [resS6, resS4] := by
    simp [dbBoost, List.filterMap_cons, vsRow_hi, vsRow_lo, vsRow_null]
  rw [hscan, sortByScoreDesc_pair, if_pos (by norm_num [resS6, resS4])]
  rfl

/-- C8: `vectorSearchBoosted` is the same scan over `2 × limit` candidates
at the given `minScore`, each candidate's score multiplied by its category's
configured multiplier and clamped at `1.0`, re-sorted descending and
truncated to `limit`; concretely, with a `2.0` boost on `preference`, the
`0.4`-scoring match in that category ranks above the unboosted
`0.6`-scoring match (`0.4 × 2.0 = 0.8 > 0.6`). -/
theorem claim_C8_vectorSearchBoosted :
    (∀ (db : DB) (q : List ℝ) (limit : ℕ) (minScore : ℝ) (bc : BoostTable),
      MemoryDB.vectorSearchBoosted db q limit minScore bc =
        (sortByScoreDesc ((MemoryDB.vectorSearch db q (limit * 2) minScore).map
          (applyBoost bc))).take limit) ∧
    (∀ (bc : BoostTable) (r : MemorySearchResult) (b : ℝ),
      bc r.entry.category = some b → b ≠ 0 →
      (applyBoost bc r).score = min (r.score * b) 1 ∧ (applyBoost bc r).score ≤ 1) ∧
    MemoryDB.vectorSearchBoosted dbBoost [1, 0, 0, 0] 2 (3 / 10) boost2 =
      [{ resS4 with score := 4 / 5 }, resS6] := by
  refine ⟨fun db q limit minScore bc => rfl, ?_, ?_⟩
  · intro bc r b hb hb0
    have hsc : (applyBoost bc r).score = min (r.score * b) 1 := by
      simp only [applyBoost, hb, if_neg hb0]
    exact ⟨hsc, hsc ▸ min_le_right _ _⟩
  · rw [MemoryDB.vectorSearchBoosted]
    have h4 : MemoryDB.vectorSearch dbBoost [1, 0, 0, 0] (2 * 2) (3 / 10)
        = [resS6, resS4] := vsearch_dbBoost
    rw [h4]
    have h1 : applyBoost boost2 resS6 = resS6 := rfl
    have h2 : applyBoost boost2 resS4 = { resS4 with score := 4 / 5 } := by
      have hpref : boost2 resS4.entry.category = some 2 := rfl
      simp only [applyBoost, hpref]
      rw [if_neg (by norm_num : (2 : ℝ) ≠ 0)]
      have hm : min (resS4.score * 2) 1 = (4 / 5 : ℝ) := by
        rw [show resS4.score = 2 / 5 from rfl,
          show ((2 / 5 : ℝ) * 2) = 4 / 5 by norm_num]
        exact min_eq_left (by norm_num)
      rw [hm]
    have hmap : [resS6, resS4].map (applyBoost boost2)
        = [resS6, { resS4 with score := 4 / 5 }] := by
      rw [List.map_cons, List.map_cons, List.map_nil, h1, h2]
    rw [hmap, sortByScoreDesc_pair, if_neg (by norm_num [resS6, resS4])]
    rfl

/-- C8 witness: the clamp equation at a concrete result, and the concrete
ranking `["lo", "hi"]` of the boosted search (the boosted 0.4 match first). -/
theorem claim_C8_witness :
    (applyBoost boost2 resS4).score = min (resS4.score * 2) 1 ∧
    (MemoryDB.vectorSearchBoosted dbBoost [1, 0, 0, 0] 2 (3 / 10) boost2).map
      (fun r => r.entry.id) = ["lo", "hi"] := by
  constructor
  · exact (claim_C8_vectorSearchBoosted.2.1 boost2 resS4 2
      (by simp [boost2, resS4]) (by norm_num)).1
  · rw [claim_C8_vectorSearchBoosted.2.2]
    rfl

/-! ## Embedding backend chain (`DualEmbeddings.embed`, `embeddings.ts`)

The chain is embedded over the observable outcomes of the three tiers:
`primary`/`fallback` are `none` when the provider is not configured, and
otherwise carry the result of awaiting its `embed` call (`Except.error` for
a thrown/rejected call, caught by the chain); `dflt` is the always-present
Transformers.js tier.  The `_dimension` field is `D`. -/

/-- The length reconciliation applied to the fallback tier's vector:
zero-pad to `D` when shorter, truncate to `D` when longer. -/
def reconcile (D : ℕ) (vec : List ℝ) : List ℝ :=
  if vec.length < D then vec ++ List.replicate (D - vec.length) 0 else vec.take D

/-- `DualEmbeddings.embed`: try primary, catch-and-fall-through; try
fallback with pad/truncate to `_dimension`; finally the default tier, whose
failure alone produces the `All embedding providers failed` error. -/
def DualEmbeddings.embed (D : ℕ)
    (primary fallback : Option (Except String (List ℝ)))
    (dflt : Except String (List ℝ)) : Except String (List ℝ) :=
  match primary with
  | some (Except.ok v) => Except.ok v
  | _ =>
    match fallback with
    | some (Except.ok v) =>
      if v.length < D then Except.ok (v ++ List.replicate (D - v.length) 0)
      else Except.ok (v.take D)
    | _ =>
      match dflt with
      | Except.ok v => Except.ok v
      | Except.error e =>
        Except.error ("All embedding providers failed. Last error: " ++ e)

/-- C5: the chain errors exactly when every configured tier failed (the
default tier is always configured); a primary failure is caught and behaves
like an unconfigured primary; a fallback success is length-reconciled to the
configured dimension `D` by zero-padding or truncation. -/
theorem claim_C5_dual_embed_chain :
    (∀ (D : ℕ) (primary fallback : Option (Except String (List ℝ)))
       (dflt : Except String (List ℝ)),
      ((∃ e, DualEmbeddings.embed D primary fallback dflt = Except.error e) ↔
        ((primary = none ∨ ∃ e, primary = some (Except.error e)) ∧
         (fallback = none ∨ ∃ e, fallback = some (Except.error e)) ∧
         ∃ e, dflt = Except.error e))) ∧
    (∀ D e fallback dflt,
      DualEmbeddings.embed D (some (Except.error e)) fallback dflt =
        DualEmbeddings.embed D none fallback dflt) ∧
    (∀ (D : ℕ) (primary : Option (Except String (List ℝ))) (v : List ℝ) dflt,
      (primary = none ∨ ∃ e, primary = some (Except.error e)) →
      DualEmbeddings.embed D primary (some (Except.ok v)) dflt =
        Except.ok (reconcile D v)) ∧
    (∀ (D : ℕ) (v : List ℝ),
      (reconcile D v).length = D ∧
      (v.length < D → reconcile D v = v ++ List.replicate (D - v.length) 0) ∧
      (D ≤ v.length → reconcile D v = v.take D)) := by
  refine ⟨?_, ?_, ?_, ?_⟩
  · intro D primary fallback dflt
    rcases primary with _ | p
    · rcases fallback with _ | f
      · cases dflt <;> simp [DualEmbeddings.embed]
      · rcases f with e | v
        · cases dflt <;> simp [DualEmbeddings.embed]
        · by_cases hlen : v.length < D <;> simp [DualEmbeddings.embed, hlen]
    · rcases p with e | v
      · rcases fallback with _ | f
        · cases dflt <;> simp [DualEmbeddings.embed]
        · rcases f with e2 | v
          · cases dflt <;> simp [DualEmbeddings.embed]
          · by_cases hlen : v.length < D <;> simp [DualEmbeddings.embed, hlen]
      · simp [DualEmbeddings.embed]
  · intro D e fallback dflt
    rfl
  · intro D primary v dflt hp
    rcases hp with hp | ⟨e, hp⟩ <;> subst hp <;>
      by_cases hlen : v.length < D <;>
        simp [DualEmbeddings.embed, reconcile, hlen]
  · intro D v
    refine ⟨?_, fun h => by simp [reconcile, h], fun h => by
      simp [reconcile, Nat.not_lt.mpr h]⟩
    by_cases h : v.length < D
    · simp [reconcile, h]
      omega
    · simp [reconcile, h]
      omega

/-- C5 witness: a failed primary falls through to a successful fallback
whose 2-vector is zero-padded to the configured dimension 4; when all three
tiers fail the chain surfaces the aggregated error. -/
theorem claim_C5_witness :
    DualEmbeddings.embed 4 (some (Except.error "auth")) (some (Except.ok [1, 2]))
        (Except.ok [9]) = Except.ok [1, 2, 0, 0] ∧
    DualEmbeddings.embed 4 (some (Except.error "auth")) (some (Except.error "conn"))
        (Except.error "load") =
      Except.error ("All embedding providers failed. Last error: " ++ "load") := by
  constructor
  · have h := claim_C5_dual_embed_chain.2.2.1 4 (some (Except.error "auth")) [1, 2]
      (Except.ok [9]) (Or.inr ⟨"auth", rfl⟩)
    rw [h]
    rfl
  · rfl

/-! ## Lazy model initialization (`TransformersEmbeddings.ensureInitialized`)

The class state is `extractor` (null until a successful load) and
`initPromise` (null unless a load is in flight); promises are identified by
ids drawn from a fresh counter.  `ensureInitialized` is the synchronous
prefix of the method: return at once when the extractor is set, return the
existing in-flight promise when one exists, otherwise start a new load and
return its promise.  `completeInit` is the settling of the in-flight load:
on success the extractor is set; on failure the `catch` block executes
`this.initPromise = null` (and rethrows), clearing the in-flight marker. -/

/-- The mutable fields of `TransformersEmbeddings` relevant to lazy init. -/
structure TEState where
  loaded : Bool
  inflight : Option ℕ
  nextId : ℕ

/-- What a call to `ensureInitialized` hands back to `embed`. -/
inductive EnsureResult
  | resolved
  | awaits (id : ℕ)

/-- The synchronous body of `ensureInitialized`. -/
def TransformersEmbeddings.ensureInitialized (s : TEState) : TEState × EnsureResult :=
  if s.loaded then (s, EnsureResult.resolved)
  else
    match s.inflight with
    | some id => (s, EnsureResult.awaits id)
    | none =>
      ({ loaded := s.loaded, inflight := some s.nextId, nextId := s.nextId + 1 },
       EnsureResult.awaits s.nextId)

/-- Settling of the in-flight load (`ok = false` is the `catch` branch,
which nulls `initPromise` before rethrowing). -/
def TransformersEmbeddings.completeInit (ok : Bool) (s : TEState) : TEState :=
  match s.inflight with
  | none => s
  | some _ =>
    if ok then { s with loaded := true } else { s with inflight := none }

/-- C4: a failed initialization clears the in-flight marker, so the next
call starts a fresh initialization attempt (a new promise id) instead of
being poisoned; once a load succeeded, every later call returns immediately
and never starts another load; a caller arriving while a load is in flight
awaits that same load without changing the state. -/
theorem claim_C4_lazy_init_retry :
    (∀ (s : TEState) (id : ℕ), s.inflight = some id → s.loaded = false →
      id < s.nextId →
      ((TransformersEmbeddings.completeInit false s).inflight = none ∧
       (TransformersEmbeddings.completeInit false s).loaded = false ∧
       ∃ newId, newId ≠ id ∧
         (TransformersEmbeddings.ensureInitialized
           (TransformersEmbeddings.completeInit false s)).2 =
             EnsureResult.awaits newId ∧
         (TransformersEmbeddings.ensureInitialized
           (TransformersEmbeddings.completeInit false s)).1.inflight = some newId)) ∧
    (∀ s : TEState, s.loaded = true →
      TransformersEmbeddings.ensureInitialized s = (s, EnsureResult.resolved)) ∧
    (∀ (ok : Bool) (s : TEState), s.loaded = true →
      (TransformersEmbeddings.completeInit ok s).loaded = true) ∧
    (∀ (s : TEState) (id : ℕ), s.loaded = false → s.inflight = some id →
      TransformersEmbeddings.ensureInitialized s = (s, EnsureResult.awaits id)) := by
  refine ⟨?_, ?_, ?_, ?_⟩
  · intro s id hin hload hlt
    have hc : TransformersEmbeddings.completeInit false s =
        { s with inflight := none } := by
      rw [TransformersEmbeddings.completeInit, hin]
      simp
    rw [hc]
    refine ⟨rfl, hload, s.nextId, by omega, ?_, ?_⟩
    · rw [TransformersEmbeddings.ensureInitialized]
      simp [hload]
    · rw [TransformersEmbeddings.ensureInitialized]
      simp [hload]
  · intro s h
    rw [TransformersEmbeddings.ensureInitialized, if_pos h]
  · intro ok s h
    rw [TransformersEmbeddings.completeInit]
    cases hin : s.inflight with
    | none => exact h
    | some j => cases ok <;> simp [h]
  · intro s id hload hin
    rw [TransformersEmbeddings.ensureInitialized, if_neg (by rw [hload]; simp), hin]

/-- The fresh `TransformersEmbeddings` state (nothing loaded, no promise). -/
def teFresh : TEState := { loaded := false, inflight := none, nextId := 0 }

/-- State right after the first call started load `0`. -/
def tePending : TEState := { loaded := false, inflight := some 0, nextId := 1 }

/-- C4 witness: from the fresh state, a call starts load `0`; its failure
clears the marker; the next call starts the distinct load `1`. -/
theorem claim_C4_witness :
    (TransformersEmbeddings.ensureInitialized teFresh).2 = EnsureResult.awaits 0 ∧
    (TransformersEmbeddings.completeInit false tePending).inflight = none ∧
    (TransformersEmbeddings.ensureInitialized
      (TransformersEmbeddings.completeInit false tePending)).2 = EnsureResult.awaits 1 := by
  have h := claim_C4_lazy_init_retry.1 tePending 0 rfl rfl (by decide)
  obtain ⟨h1, _, newId, hne, h2, h3⟩ := h
  refine ⟨rfl, h1, ?_⟩
  rw [h2]
  have hnew : newId = 1 := by
    rw [TransformersEmbeddings.completeInit] at h3
    simp [TransformersEmbeddings.ensureInitialized, tePending] at h3
    omega
  rw [hnew]
